import Mathlib

/-!
Verification development for the AIND-Recognizer model-selection and
recognition layer (`my_model_selectors.py`, `my_recognizer.py`).

The Python code is shallowly embedded: feature matrices are lists of rows of
rationals, the external `GaussianHMM` fit/score calls are oracle functions
carried in an `Env` record, and Python exceptions are an explicit `PyExc`
error type threaded through `Except`.  Floating-point scores are modelled by
exact rationals; `np.log2` on matrix row counts is an abstract oracle
(`Env.log2`) since its float value is irrelevant to the control flow being
verified.  Python's `set` iteration order (used in `SelectorDIC`) is modelled
as key order; the quantities the code derives from it (a sum and a length)
are order-independent over exact rationals.
-/

namespace AIND

/-- Feature matrix: list of frame rows (`np.ndarray` of shape (N, d)). -/
abbrev Mat := List (List ℚ)

/-- Python exception classes that the embedded code can raise or catch. -/
inductive PyExc where
  | valueError
  | attributeError
  | typeError
  | zeroDivisionError
  | otherError
deriving DecidableEq

deriving instance DecidableEq for Except

/-- Embeds Python `filter(None, xs)` over a list of optional floats: it keeps
the truthy elements, i.e. it drops both `None` and `0.0`. -/
def pyTruthyFilter (xs : List (Option ℚ)) : List ℚ :=
  (xs.filterMap id).filter (fun q => decide (q ≠ 0))

/-- Embeds Python `min(xs)`: `ValueError` on an empty sequence. -/
def pyMin : List ℚ → Except PyExc ℚ
  | [] => .error .valueError
  | x :: xs => .ok (xs.foldl min x)

/-- Embeds Python `max(xs)`: `ValueError` on an empty sequence. -/
def pyMax : List ℚ → Except PyExc ℚ
  | [] => .error .valueError
  | x :: xs => .ok (xs.foldl max x)

/-- First index of `some v` in `xs`, if any (helper for `list.index`). -/
def pyIndexAux (xs : List (Option ℚ)) (v : ℚ) : Option Nat :=
  match xs with
  | [] => none
  | x :: rest => if x = some v then some 0 else (pyIndexAux rest v).map (· + 1)

/-- Embeds Python `xs.index(v)` on a list of optional floats (`None == v` is
false for a float `v`, so only `some v` entries match): `ValueError` when the
value is absent. -/
def pyIndex (xs : List (Option ℚ)) (v : ℚ) : Except PyExc Nat :=
  match pyIndexAux xs v with
  | some i => .ok i
  | none => .error .valueError

/-- Embeds `model_scores.index(min(filter(None, model_scores)))`, the winner
computation shared by the selectors that minimise. -/
def pickMinIdx (tbl : List (Option ℚ)) : Except PyExc Nat :=
  match pyMin (pyTruthyFilter tbl) with
  | .error e => .error e
  | .ok v => pyIndex tbl v

/-- Embeds `model_scores.index(max(filter(None, model_scores)))`, the winner
computation shared by the selectors that maximise. -/
def pickMaxIdx (tbl : List (Option ℚ)) : Except PyExc Nat :=
  match pyMax (pyTruthyFilter tbl) with
  | .error e => .error e
  | .ok v => pyIndex tbl v

/-- Effectful map over a list, stopping at the first raised exception, as a
Python `for` loop over the list does. -/
def exMap (f : α → Except PyExc β) : List α → Except PyExc (List β)
  | [] => .ok []
  | a :: as =>
    match f a with
    | .error e => .error e
    | .ok b =>
      match exMap f as with
      | .error e => .error e
      | .ok bs => .ok (b :: bs)

/-- Row count of a matrix (`X.shape[0]`). -/
def nRows (X : Mat) : Nat := X.length

/-- Column count of a matrix (`X.shape[1]`; numpy matrices are rectangular). -/
def nCols (X : Mat) : Nat := (X.headD []).length

/-- The environment of one `ModelSelector` instance: the constructor-derived
fields of the Python object plus the opaque external collaborators.
`wordKeys` is `list(all_word_sequences)` in iteration order, `hwords` the
`all_word_Xlengths` dict, `sequences` is `self.sequences`, `nConstant` is
`self.n_constant`, and the pair `(X, lengths)` is the initial
`self.X, self.lengths`.  `fit` is
`GaussianHMM(...).fit` as wrapped by `base_model` (bare `except` returns
`None`), `score` is `model.score(matrix, lengths)`, `scoreStr` is the
ill-typed call `model.score(word_string, model)` appearing in `SelectorDIC`,
`log2` is `np.log2` on integers, and `kfoldSplits` is the split list produced
by `KFold().split(self.sequences)` (sklearn, external). -/
structure Env where
  wordKeys : List String
  hwords : List (String × Mat × List Nat)
  thisWord : String
  sequences : List Mat
  X : Mat
  lengths : List Nat
  nConstant : Nat
  minN : Nat
  maxN : Nat
  fit : Nat → Mat → List Nat → Option Nat
  score : Nat → Mat → List Nat → Except PyExc ℚ
  scoreStr : Nat → String → Nat → Except PyExc ℚ
  log2 : Nat → ℚ
  kfoldSplits : Except PyExc (List (List Nat × List Nat))

/-- The candidate range `range(self.min_n_components, self.max_n_components + 1)`. -/
def nRange (e : Env) : List Nat := List.range' e.minN (e.maxN + 1 - e.minN)

/-- The characters of a string as one-character strings: Python's
`set(self.this_word)` is the set of characters of the word, and Python
characters are one-character strings. -/
def charStrings (w : String) : List String := w.toList.map (fun c => String.mk [c])

/-- Embeds `set(self.words) - set(self.this_word)` from `SelectorDIC.select`:
the vocabulary keys minus the set of characters of the current word (not
minus the current word itself). -/
def otherWords (e : Env) : List String :=
  e.wordKeys.filter (fun w => decide (¬ (charStrings e.thisWord).contains w))

/-- Modelled from the spec: `combine_sequences` (imported from `asl_utils`,
which is not under `src/`) concatenates the sequences selected by the index
list into one feature matrix together with the matching length vector. -/
def combine_sequences (idx : List Nat) (seqs : List Mat) : Mat × List Nat :=
  let sel := idx.map (fun i => seqs.getD i [])
  (sel.flatten, sel.map List.length)

/-! ### SelectorConstant (`my_model_selectors.py`, lines 47-58) -/

/-- Embeds `SelectorConstant.select` over an explicit selector state: a
single `return self.base_model(self.n_constant)` call, no search, no scoring,
no state mutation; `base_model`'s bare `except` means no exception escapes. -/
def constantSelectSt (e : Env) (st : Mat × List Nat) :
    Except PyExc (Option Nat × (Mat × List Nat)) :=
  .ok (e.fit e.nConstant st.1 st.2, st)

/-! ### SelectorBIC (`my_model_selectors.py`, lines 61-95) -/

/-- The score expression on lines 82-86 with its parenthesisation as written:
`-(2 * logL) + (n**2 + (2*n*d - 1) * log2(N))` — only the `(2*n*d - 1)`
factor is multiplied by `log2(N)`. -/
def bicCodeScore (e : Env) (st : Mat × List Nat) (n : Nat) (L : ℚ) : ℚ :=
  -(2 * L) + ((n : ℚ) ^ 2 + (2 * (n : ℚ) * (nCols st.1 : ℚ) - 1) * e.log2 (nRows st.1))

/-- One iteration of the `SelectorBIC.select` loop body for candidate `n`:
`base_model` failure surfaces as `AttributeError` on `None.score`, which the
`except (ValueError, AttributeError)` clause turns into an absent entry; any
other exception class raised by `score` escapes. -/
def bicEntry (e : Env) (st : Mat × List Nat) (n : Nat) : Except PyExc (Option ℚ) :=
  match e.fit n st.1 st.2 with
  | none => .ok none
  | some m =>
    match e.score m st.1 st.2 with
    | .ok L => .ok (some (bicCodeScore e st n L))
    | .error .valueError => .ok none
    | .error .attributeError => .ok none
    | .error exc => .error exc

/-- The `model_scores` table built by the `SelectorBIC.select` loop, indexed
by `n - min_n_components`. -/
def bicTable (e : Env) (st : Mat × List Nat) : Except PyExc (List (Option ℚ)) :=
  exMap (bicEntry e st) (nRange e)

/-- Embeds `SelectorBIC.select` (lines 68-95) over an explicit selector state
`st = (self.X, self.lengths)`; the result pairs the returned value (a model
handle or `None`) with the state after the call (BIC never mutates it). -/
def bicSelectSt (e : Env) (st : Mat × List Nat) :
    Except PyExc (Option Nat × (Mat × List Nat)) :=
  match bicTable e st with
  | .error exc => .error exc
  | .ok tbl =>
    if tbl.all Option.isNone then .ok (none, st)
    else
      match pickMinIdx tbl with
      | .error exc => .error exc
      | .ok i => .ok (e.fit (i + e.minN) st.1 st.2, st)

/-! ### SelectorDIC (`my_model_selectors.py`, lines 98-136) -/

/-- The inner other-word loop of `SelectorDIC.select` (lines 123-127): each
`model.score(other_word, model)` call appends its value on success; only
`TypeError` is caught, every other exception class escapes. -/
def collectStrScores (e : Env) (m : Nat) : List String → Except PyExc (List ℚ)
  | [] => .ok []
  | w :: ws =>
    match e.scoreStr m w m with
    | .ok s =>
      match collectStrScores e m ws with
      | .error exc => .error exc
      | .ok rest => .ok (s :: rest)
    | .error .typeError => collectStrScores e m ws
    | .error exc => .error exc

/-- One iteration of the `SelectorDIC.select` loop body for candidate `n`
(lines 114-129).  The `try` covers only the fit and the self-score; the
penalty computation runs unprotected: `other_word_scores` starts as
`[None] * len(other_words)` and successful scores are appended after it, the
numerator is `sum(filter(None, other_word_scores))`, and the denominator
`len([word for word in other_words if word])` counts the non-empty other
words — raising `ZeroDivisionError` when there are none. -/
def dicCandidate (e : Env) (st : Mat × List Nat) (n : Nat) : Except PyExc (Option ℚ) :=
  match e.fit n st.1 st.2 with
  | none => .ok none
  | some m =>
    match e.score m st.1 st.2 with
    | .error .valueError => .ok none
    | .error .attributeError => .ok none
    | .error exc => .error exc
    | .ok selfScore =>
      match collectStrScores e m (otherWords e) with
      | .error exc => .error exc
      | .ok appended =>
        let scoresList := List.replicate (otherWords e).length (none : Option ℚ)
          ++ appended.map some
        let numer := (pyTruthyFilter scoresList).sum
        let denom := ((otherWords e).filter (fun w => decide (w ≠ ""))).length
        if denom = 0 then .error .zeroDivisionError
        else .ok (some (selfScore - numer / (denom : ℚ)))

/-- The `model_scores` table built by the `SelectorDIC.select` loop. -/
def dicTable (e : Env) (st : Mat × List Nat) : Except PyExc (List (Option ℚ)) :=
  exMap (dicCandidate e st) (nRange e)

/-- Embeds `SelectorDIC.select` (lines 107-136) over an explicit selector
state.  The winner computation on line 132 sits in a `try` whose
`except ValueError` falls back to `base_model(min_n_components)`. -/
def dicSelectSt (e : Env) (st : Mat × List Nat) :
    Except PyExc (Option Nat × (Mat × List Nat)) :=
  match dicTable e st with
  | .error exc => .error exc
  | .ok tbl =>
    match pickMaxIdx tbl with
    | .error .valueError => .ok (e.fit e.minN st.1 st.2, st)
    | .error exc => .error exc
    | .ok i => .ok (e.fit (i + e.minN) st.1 st.2, st)

/-! ### SelectorCV (`my_model_selectors.py`, lines 139-173) -/

/-- One fold body of `SelectorCV.select` (lines 157-161): fit on the
training fold, score against the held-out fold; `base_model` failure
(`AttributeError` on `None.score`) and `ValueError`/`AttributeError` from
`score` are caught (`continue`), any other exception class escapes. -/
def cvFoldStep (e : Env) (n : Nat) (tr te : List Nat) : Except PyExc (Option ℚ) :=
  let trd := combine_sequences tr e.sequences
  let ted := combine_sequences te e.sequences
  match e.fit n trd.1 trd.2 with
  | none => .ok none
  | some m =>
    match e.score m ted.1 ted.2 with
    | .ok s => .ok (some s)
    | .error .valueError => .ok none
    | .error .attributeError => .ok none
    | .error exc => .error exc

/-- The inner fold loop of `SelectorCV.select` (lines 154-161) for candidate
`n`, threading the selector state: line 155 assigns `self.X, self.lengths =
combine_sequences(cv_train_idx, self.sequences)` before the `try`, so the
incoming state is overwritten on every fold regardless of fit success (on a
non-empty fold list the incoming state is never read).  Returns the state
after the loop together with the collected `component_scores`. -/
def cvFoldLoop (e : Env) (n : Nat) :
    List (List Nat × List Nat) → Mat × List Nat → Except PyExc ((Mat × List Nat) × List ℚ)
  | [], st => .ok (st, [])
  | (tr, te) :: rest, _ =>
    match cvFoldStep e n tr te with
    | .error exc => .error exc
    | .ok res =>
      match cvFoldLoop e n rest (combine_sequences tr e.sequences) with
      | .error exc => .error exc
      | .ok (st', ss) =>
        .ok (st', match res with | none => ss | some s => s :: ss)

/-- One candidate iteration of `SelectorCV.select` when the word has more
than 2 sequences: run the folds of `KFold().split(self.sequences)` and record
`np.mean(component_scores)` when at least one fold succeeded. -/
def cvCandidate (e : Env) (n : Nat) (st : Mat × List Nat) :
    Except PyExc ((Mat × List Nat) × Option ℚ) :=
  match e.kfoldSplits with
  | .error exc => .error exc
  | .ok splits =>
    match cvFoldLoop e n splits st with
    | .error exc => .error exc
    | .ok (st', ss) =>
      .ok (st', if ss.isEmpty then none else some (ss.sum / (ss.length : ℚ)))

/-- Outcome of the candidate loop of `SelectorCV.select`: either an early
`return self.base_model(self.min_n_components)` from the `else` branch on
line 166, or the completed score table. Both carry the selector state at that
point. -/
inductive CVStep where
  | early (r : Option Nat) (st : Mat × List Nat)
  | table (st : Mat × List Nat) (tbl : List (Option ℚ))

/-- The candidate loop of `SelectorCV.select` (lines 151-166): each iteration
checks `len(self.sequences) > 2`; the `else` branch returns the
minimum-components model immediately. -/
def cvLoop (e : Env) : List Nat → Mat × List Nat → Except PyExc CVStep
  | [], st => .ok (.table st [])
  | n :: rest, st =>
    if 2 < e.sequences.length then
      match cvCandidate e n st with
      | .error exc => .error exc
      | .ok (st', entry) =>
        match cvLoop e rest st' with
        | .error exc => .error exc
        | .ok (.early r st'') => .ok (.early r st'')
        | .ok (.table st'' tbl) => .ok (.table st'' (entry :: tbl))
    else .ok (.early (e.fit e.minN st.1 st.2) st)

/-- The tail of `SelectorCV.select` (lines 168-173) run on the completed
score table and the selector state as mutated by the folds: the
`all(x is None ...)` guard falls back to the minimum-components model;
otherwise the winner computation runs with no `try` around it, so a
`ValueError` from `max` of an empty filtered list escapes. -/
def cvFinish (e : Env) (st' : Mat × List Nat) (tbl : List (Option ℚ)) :
    Except PyExc (Option Nat × (Mat × List Nat)) :=
  if tbl.all Option.isNone then .ok (e.fit e.minN st'.1 st'.2, st')
  else
    match pickMaxIdx tbl with
    | .error exc => .error exc
    | .ok i => .ok (e.fit (i + e.minN) st'.1 st'.2, st')

/-- Embeds `SelectorCV.select` (lines 144-173) over an explicit selector
state. -/
def cvSelectSt (e : Env) (st : Mat × List Nat) :
    Except PyExc (Option Nat × (Mat × List Nat)) :=
  match cvLoop e (nRange e) st with
  | .error exc => .error exc
  | .ok (.early r st') => .ok (r, st')
  | .ok (.table st' tbl) => cvFinish e st' tbl

/-! ### Recognizer (`my_recognizer.py`) -/

/-- The per-item scoring loop of `recognize` (lines 28-33): each word's model
is scored against the item's data, a bare `except` silently skips any failing
word, and the score dict keeps insertion (= model-bank) order. -/
def itemScores (score : Nat → Mat → List Nat → Except PyExc ℚ)
    (models : List (String × Nat)) (X : Mat) (l : List Nat) : List (String × ℚ) :=
  models.filterMap (fun p =>
    match score p.2 X l with
    | .ok s => some (p.1, s)
    | .error _ => none)

/-- One comparison step of Python `max` with a key function: the running
best is replaced only when the new value is strictly greater. -/
def bestStep (b q : String × ℚ) : String × ℚ := if q.2 > b.2 then q else b

/-- Embeds Python `max(scores.keys(), key=lambda k: scores[k])`: the first
key attaining the maximal value (Python's `max` replaces the running best
only on a strictly greater key value), `None` when the dict is empty. -/
def firstMax : List (String × ℚ) → Option (String × ℚ)
  | [] => none
  | p :: rest => some (rest.foldl bestStep p)

/-- Embeds `recognize` (`my_recognizer.py`, lines 5-37): iterate the test set
in order, collect each item's score dict, and guess the argmax word; an item
with an empty score dict makes `max` raise `ValueError`, which escapes. -/
def recognize (score : Nat → Mat → List Nat → Except PyExc ℚ)
    (models : List (String × Nat)) :
    List (Mat × List Nat) → Except PyExc (List (List (String × ℚ)) × List String)
  | [] => .ok ([], [])
  | (X, l) :: rest =>
    let sc := itemScores score models X l
    match firstMax sc with
    | none => .error .valueError
    | some g =>
      match recognize score models rest with
      | .error exc => .error exc
      | .ok (ps, gs) => .ok (sc :: ps, g.1 :: gs)

/-! ### Spec-side formulas (stated from the spec's words, for comparison) -/

/-- The BIC formula exactly as the spec states it: `-2 * logL + p * log2(N)`
with the entire parameter count `p = n^2 + (2*n*d - 1)` multiplied by
`log2(N)`. -/
def bicSpecScore (e : Env) (st : Mat × List Nat) (n : Nat) (L : ℚ) : ℚ :=
  -(2 * L) + ((n : ℚ) ^ 2 + (2 * (n : ℚ) * (nCols st.1 : ℚ) - 1)) * e.log2 (nRows st.1)

/-- The DIC score exactly as the spec states it for a fitted model `m` with
self log-likelihood `L`: `L` minus the arithmetic mean, over exactly the
vocabulary words other than the current word for which scoring succeeded, of
the model's log-likelihood on that other word's data; undefined when no other
word scored. -/
def dicSpecScore (e : Env) (m : Nat) (L : ℚ) : Option ℚ :=
  let succ := (e.hwords.filter (fun p => decide (p.1 ≠ e.thisWord))).filterMap
    (fun p =>
      match e.score m p.2.1 p.2.2 with
      | .ok s => some s
      | .error _ => none)
  if succ.length = 0 then none
  else some (L - succ.sum / (succ.length : ℚ))

/-! ### Concrete test environments

These instantiate the oracle functions (`fit`, `score`, …) with small total
functions so that the embedded selectors can be evaluated in closed form.
`fit` returns the requested component count as the model handle, making
distinct fits distinguishable. -/

/-- The initial selector state shared by the single-frame environments:
`self.X = [[1]]`, `self.lengths = [1]`. -/
def stD : Mat × List Nat := ([[1]], [1])

/-- Two-word vocabulary for `SelectorDIC`: the fitted model self-scores `-3`
on the current word's data and would score `-7` on the other word's data; the
ill-typed `model.score(other_word, model)` call raises `TypeError`. -/
def envDic1 : Env where
  wordKeys := ["A", "B"]
  hwords := [("A", ([[1]], [1])), ("B", ([[2]], [1]))]
  thisWord := "A"
  sequences := [[[1]]]
  X := [[1]]
  lengths := [1]
  nConstant := 3
  minN := 2
  maxN := 2
  fit := fun n _ _ => some n
  score := fun _ X _ => if X = [[2]] then .ok (-7) else .ok (-3)
  scoreStr := fun _ _ _ => .error .typeError
  log2 := fun _ => 0
  kfoldSplits := .ok []

/-- Single-word vocabulary for `SelectorDIC`: fit and self-score succeed. -/
def envDicSingle : Env := { envDic1 with
  wordKeys := ["A"]
  hwords := [("A", ([[1]], [1]))]
  score := fun _ _ _ => .ok (-5) }

/-- `SelectorBIC` environment with 4 frames of 1 feature (`N = 4`, `d = 1`),
`log2` oracle returning exactly 2 (= `log2 4`), and log-likelihood `-10`. -/
def envBicParen : Env := { envDic1 with
  X := [[1], [1], [1], [1]]
  lengths := [4]
  score := fun _ _ _ => .ok (-10)
  log2 := fun _ => 2 }

/-- `SelectorBIC` environment whose recorded scores are exactly `[0, 5]`
(`N = 1`, `d = 1`, `log2 1 = 0`, log-likelihood `2`): candidates 2 and 3
score `-4 + 4 = 0` and `-4 + 9 = 5`. -/
def envBicZero : Env := { envDic1 with
  maxN := 3
  score := fun _ _ _ => .ok 2 }

/-- Like `envBicZero` but the fit at 2 components fails outright. -/
def envBicZeroFail : Env := { envBicZero with
  fit := fun n _ _ => if n = 2 then none else some n }

/-- `SelectorDIC` environment whose recorded scores are exactly `[0, -5]`
(the 2-state model self-scores 0, the 3-state model `-5`; the other-word
string scoring raises `TypeError`, so the penalty is `0/1`). -/
def envDicZero : Env := { envDic1 with
  maxN := 3
  score := fun m _ _ => if m = 2 then .ok 0 else .ok (-5) }

/-- `SelectorCV` environment with 3 sequences and one fold whose recorded
averages are exactly `[0, -5]`. -/
def envCvZero : Env := { envDic1 with
  maxN := 3
  sequences := [[[1]], [[2]], [[3]]]
  kfoldSplits := .ok [([0, 1], [2])]
  score := fun m _ _ => if m = 2 then .ok 0 else .ok (-5) }

/-- Environment where every candidate fails to score (`score` always raises
`ValueError`): both `SelectorDIC` and `SelectorCV` end with an all-`None`
table. -/
def envCvFallback : Env := { envDic1 with
  maxN := 3
  sequences := [[[1]], [[2]], [[3]]]
  kfoldSplits := .ok [([0, 1], [2])]
  score := fun _ _ _ => .error .valueError }

/-- `SelectorCV` environment for a word with a single training sequence; the
k-fold oracle is poisoned to demonstrate it is never consulted. -/
def envCvSmall : Env := { envDic1 with
  maxN := 5
  kfoldSplits := .error .otherError }

/-- `SelectorCV` environment with 3 sequences, one fold and a successful
scoring, used to exercise a full state-mutating run. -/
def envCvRun : Env := { envDic1 with
  sequences := [[[1]], [[2]], [[3]]]
  kfoldSplits := .ok [([0, 1], [2])]
  score := fun _ _ _ => .ok (-3) }

/-- Oracle for the recognizer witness: model handle 0 scores `-50`, any
other handle scores `-10`, on any data. -/
def scoreW : Nat → Mat → List Nat → Except PyExc ℚ :=
  fun m _ _ => if m = 0 then .ok (-50) else .ok (-10)

/-- Model bank for the recognizer witness. -/
def modelsW : List (String × Nat) := [("A", 0), ("B", 1)]

/-- Test set for the recognizer witness: a single item. -/
def tsW : List (Mat × List Nat) := [([[1]], [1])]

/-! ### Generic lemmas about the Python-builtin embeddings -/

theorem exMap_ok_get? {f : α → Except PyExc β} :
    ∀ {l : List α} {ys : List β} {i : Nat} {a : α},
      exMap f l = .ok ys → l[i]? = some a → ∃ b, ys[i]? = some b ∧ f a = .ok b := by
  intro l
  induction l with
  | nil => intro ys i a h hi; simp at hi
  | cons x xs ih =>
    intro ys i a h hi
    unfold exMap at h
    cases hfx : f x with
    | error e => rw [hfx] at h; exact absurd h (by simp)
    | ok b =>
      rw [hfx] at h
      cases hrest : exMap f xs with
      | error e => rw [hrest] at h; exact absurd h (by simp)
      | ok bs =>
        rw [hrest] at h
        cases h' : h
        cases i with
        | zero =>
          simp at hi ⊢
          subst hi
          simpa using hfx
        | succ j =>
          simp at hi ⊢
          exact ih hrest hi

theorem exMap_ok_length {f : α → Except PyExc β} :
    ∀ {l : List α} {ys : List β}, exMap f l = .ok ys → ys.length = l.length := by
  intro l
  induction l with
  | nil => intro ys h; unfold exMap at h; cases h; rfl
  | cons x xs ih =>
    intro ys h
    unfold exMap at h
    cases hfx : f x with
    | error e => rw [hfx] at h; exact absurd h (by simp)
    | ok b =>
      rw [hfx] at h
      cases hrest : exMap f xs with
      | error e => rw [hrest] at h; exact absurd h (by simp)
      | ok bs => rw [hrest] at h; cases h; simpa using ih hrest

theorem exMap_congr_ok {f : α → Except PyExc β} {c : β} :
    ∀ {l : List α}, (∀ a ∈ l, f a = .ok c) →
      exMap f l = .ok (l.map (fun _ => c)) := by
  intro l
  induction l with
  | nil => intro _; rfl
  | cons x xs ih =>
    intro h
    unfold exMap
    rw [h x (by simp), ih (fun a ha => h a (by simp [ha]))]
    rfl

theorem pyTruthyFilter_mem {xs : List (Option ℚ)} {q : ℚ} :
    q ∈ pyTruthyFilter xs ↔ some q ∈ xs ∧ q ≠ 0 := by
  simp [pyTruthyFilter, List.mem_filter, List.mem_filterMap]

theorem pyTruthyFilter_of_all_none {xs : List (Option ℚ)}
    (h : ∀ x ∈ xs, x = none) : pyTruthyFilter xs = [] := by
  have : xs.filterMap id = [] := by
    rw [List.filterMap_eq_nil_iff]
    intro a ha; rw [h a ha]; rfl
  simp [pyTruthyFilter, this]

theorem foldl_min_le {xs : List ℚ} : ∀ {x : ℚ},
    xs.foldl min x ≤ x ∧ ∀ y ∈ xs, xs.foldl min x ≤ y := by
  induction xs with
  | nil => intro x; simp
  | cons z zs ih =>
    intro x
    refine ⟨le_trans (le_trans ih.1 (min_le_left x z)) le_rfl, ?_⟩
    intro y hy
    rcases List.mem_cons.mp hy with rfl | hy
    · exact le_trans ih.1 (min_le_right x y)
    · exact ih.2 y hy

theorem foldl_min_mem {xs : List ℚ} : ∀ {x : ℚ},
    xs.foldl min x = x ∨ xs.foldl min x ∈ xs := by
  induction xs with
  | nil => intro x; simp
  | cons z zs ih =>
    intro x
    rcases @ih (min x z) with h | h
    · rcases min_cases x z with ⟨hm, _⟩ | ⟨hm, _⟩
      · exact .inl (by rw [List.foldl_cons, h, hm])
      · refine .inr ?_
        rw [List.foldl_cons, h, hm]
        exact List.mem_cons_self z zs
    · refine .inr ?_
      rw [List.foldl_cons]
      exact List.mem_cons_of_mem _ h

theorem foldl_max_ge {xs : List ℚ} : ∀ {x : ℚ},
    x ≤ xs.foldl max x ∧ ∀ y ∈ xs, y ≤ xs.foldl max x := by
  induction xs with
  | nil => intro x; simp
  | cons z zs ih =>
    intro x
    refine ⟨le_trans (le_max_left x z) ih.1, ?_⟩
    intro y hy
    rcases List.mem_cons.mp hy with rfl | hy
    · exact le_trans (le_max_right x y) ih.1
    · exact ih.2 y hy

theorem foldl_max_mem {xs : List ℚ} : ∀ {x : ℚ},
    xs.foldl max x = x ∨ xs.foldl max x ∈ xs := by
  induction xs with
  | nil => intro x; simp
  | cons z zs ih =>
    intro x
    rcases @ih (max x z) with h | h
    · rcases max_cases x z with ⟨hm, _⟩ | ⟨hm, _⟩
      · exact .inl (by rw [List.foldl_cons, h, hm])
      · refine .inr ?_
        rw [List.foldl_cons, h, hm]
        exact List.mem_cons_self z zs
    · refine .inr ?_
      rw [List.foldl_cons]
      exact List.mem_cons_of_mem _ h

theorem pyMin_spec {l : List ℚ} {v : ℚ} (h : pyMin l = .ok v) :
    v ∈ l ∧ ∀ y ∈ l, v ≤ y := by
  cases l with
  | nil => exact Except.noConfusion (show (Except.error .valueError : Except PyExc ℚ) = .ok v from h)
  | cons x xs =>
    have h' : (Except.ok (xs.foldl min x) : Except PyExc ℚ) = .ok v := h
    obtain rfl : xs.foldl min x = v := by injection h'
    constructor
    · rcases @foldl_min_mem xs x with h' | h'
      · rw [h']; simp
      · exact List.mem_cons_of_mem _ h'
    · intro y hy
      rcases List.mem_cons.mp hy with rfl | hy
      · exact (foldl_min_le).1
      · exact (foldl_min_le).2 y hy

theorem pyMax_spec {l : List ℚ} {v : ℚ} (h : pyMax l = .ok v) :
    v ∈ l ∧ ∀ y ∈ l, y ≤ v := by
  cases l with
  | nil => exact Except.noConfusion (show (Except.error .valueError : Except PyExc ℚ) = .ok v from h)
  | cons x xs =>
    have h' : (Except.ok (xs.foldl max x) : Except PyExc ℚ) = .ok v := h
    obtain rfl : xs.foldl max x = v := by injection h'
    constructor
    · rcases @foldl_max_mem xs x with h' | h'
      · rw [h']; simp
      · exact List.mem_cons_of_mem _ h'
    · intro y hy
      rcases List.mem_cons.mp hy with rfl | hy
      · exact (foldl_max_ge).1
      · exact (foldl_max_ge).2 y hy

theorem pyIndexAux_get? {v : ℚ} :
    ∀ {xs : List (Option ℚ)} {i : Nat}, pyIndexAux xs v = some i →
      xs[i]? = some (some v) := by
  intro xs
  induction xs with
  | nil => intro i h; exact absurd h (by simp [pyIndexAux])
  | cons x rest ih =>
    intro i h
    unfold pyIndexAux at h
    by_cases hx : x = some v
    · rw [if_pos hx] at h
      cases h
      simpa using hx
    · rw [if_neg hx] at h
      cases hr : pyIndexAux rest v with
      | none => rw [hr] at h; exact absurd h (by simp)
      | some j =>
        rw [hr] at h
        cases h
        simpa using ih hr

theorem pyIndexAux_isSome_of_mem {v : ℚ} :
    ∀ {xs : List (Option ℚ)}, some v ∈ xs → ∃ i, pyIndexAux xs v = some i := by
  intro xs
  induction xs with
  | nil => intro h; simp at h
  | cons x rest ih =>
    intro h
    unfold pyIndexAux
    by_cases hx : x = some v
    · exact ⟨0, by rw [if_pos hx]⟩
    · rcases List.mem_cons.mp h with h' | h'
      · exact absurd h'.symm hx
      · rcases ih h' with ⟨j, hj⟩
        exact ⟨j + 1, by rw [if_neg hx, hj]; rfl⟩

theorem pickMinIdx_spec {tbl : List (Option ℚ)} {i : Nat}
    (h : pickMinIdx tbl = .ok i) :
    ∃ v, tbl[i]? = some (some v) ∧ v ≠ 0 ∧
      ∀ w, some w ∈ tbl → w ≠ 0 → v ≤ w := by
  unfold pickMinIdx at h
  cases hm : pyMin (pyTruthyFilter tbl) with
  | error e => rw [hm] at h; exact Except.noConfusion h
  | ok v =>
    rw [hm] at h
    have h2 : pyIndex tbl v = .ok i := h
    have hspec := pyMin_spec hm
    have hmem := pyTruthyFilter_mem.mp hspec.1
    refine ⟨v, ?_, hmem.2, ?_⟩
    · unfold pyIndex at h2
      cases hidx : pyIndexAux tbl v with
      | none => rw [hidx] at h2; exact Except.noConfusion h2
      | some j =>
        rw [hidx] at h2
        cases h2
        exact pyIndexAux_get? hidx
    · intro w hw hw0
      exact hspec.2 w (pyTruthyFilter_mem.mpr ⟨hw, hw0⟩)

theorem pickMaxIdx_spec {tbl : List (Option ℚ)} {i : Nat}
    (h : pickMaxIdx tbl = .ok i) :
    ∃ v, tbl[i]? = some (some v) ∧ v ≠ 0 ∧
      ∀ w, some w ∈ tbl → w ≠ 0 → w ≤ v := by
  unfold pickMaxIdx at h
  cases hm : pyMax (pyTruthyFilter tbl) with
  | error e => rw [hm] at h; exact Except.noConfusion h
  | ok v =>
    rw [hm] at h
    have h2 : pyIndex tbl v = .ok i := h
    have hspec := pyMax_spec hm
    have hmem := pyTruthyFilter_mem.mp hspec.1
    refine ⟨v, ?_, hmem.2, ?_⟩
    · unfold pyIndex at h2
      cases hidx : pyIndexAux tbl v with
      | none => rw [hidx] at h2; exact Except.noConfusion h2
      | some j =>
        rw [hidx] at h2
        cases h2
        exact pyIndexAux_get? hidx
    · intro w hw hw0
      exact hspec.2 w (pyTruthyFilter_mem.mpr ⟨hw, hw0⟩)

theorem pickMinIdx_isOk {tbl : List (Option ℚ)} {v : ℚ}
    (hv : some v ∈ tbl) (hv0 : v ≠ 0) : ∃ i, pickMinIdx tbl = .ok i := by
  have hvf : v ∈ pyTruthyFilter tbl := pyTruthyFilter_mem.mpr ⟨hv, hv0⟩
  cases hft : pyTruthyFilter tbl with
  | nil => rw [hft] at hvf; simp at hvf
  | cons x xs =>
    have hm : pyMin (pyTruthyFilter tbl) = .ok (xs.foldl min x) := by
      rw [hft]; rfl
    have hmem : some (xs.foldl min x) ∈ tbl := by
      have hf : xs.foldl min x ∈ pyTruthyFilter tbl := (pyMin_spec hm).1
      exact (pyTruthyFilter_mem.mp hf).1
    rcases pyIndexAux_isSome_of_mem hmem with ⟨i, hi⟩
    refine ⟨i, ?_⟩
    unfold pickMinIdx
    rw [hm]
    show pyIndex tbl (xs.foldl min x) = .ok i
    unfold pyIndex
    rw [hi]

theorem pickMaxIdx_isOk {tbl : List (Option ℚ)} {v : ℚ}
    (hv : some v ∈ tbl) (hv0 : v ≠ 0) : ∃ i, pickMaxIdx tbl = .ok i := by
  have hvf : v ∈ pyTruthyFilter tbl := pyTruthyFilter_mem.mpr ⟨hv, hv0⟩
  cases hft : pyTruthyFilter tbl with
  | nil => rw [hft] at hvf; simp at hvf
  | cons x xs =>
    have hm : pyMax (pyTruthyFilter tbl) = .ok (xs.foldl max x) := by
      rw [hft]; rfl
    have hmem : some (xs.foldl max x) ∈ tbl := by
      have hf : xs.foldl max x ∈ pyTruthyFilter tbl := (pyMax_spec hm).1
      exact (pyTruthyFilter_mem.mp hf).1
    rcases pyIndexAux_isSome_of_mem hmem with ⟨i, hi⟩
    refine ⟨i, ?_⟩
    unfold pickMaxIdx
    rw [hm]
    show pyIndex tbl (xs.foldl max x) = .ok i
    unfold pyIndex
    rw [hi]

theorem pickMaxIdx_all_none {tbl : List (Option ℚ)}
    (h : ∀ x ∈ tbl, x = none) : pickMaxIdx tbl = .error .valueError := by
  unfold pickMaxIdx
  rw [pyTruthyFilter_of_all_none h]
  rfl

theorem all_isNone_of_forall {tbl : List (Option ℚ)}
    (h : ∀ x ∈ tbl, x = none) : tbl.all Option.isNone = true := by
  rw [List.all_eq_true]
  intro x hx
  rw [h x hx]; rfl

theorem all_isNone_false_of_mem {tbl : List (Option ℚ)} {v : ℚ}
    (h : some v ∈ tbl) : tbl.all Option.isNone = false := by
  by_contra hc
  have hall : tbl.all Option.isNone = true := by
    cases hb : tbl.all Option.isNone
    · exact absurd hb hc
    · rfl
  have hv := List.all_eq_true.mp hall _ h
  simp at hv

/-! ### Structural lemmas about the SelectorCV loop -/

theorem cvFoldLoop_state_irrel {e : Env} {n : Nat} {tr te : List Nat}
    {rest : List (List Nat × List Nat)} (st st₂ : Mat × List Nat) :
    cvFoldLoop e n ((tr, te) :: rest) st = cvFoldLoop e n ((tr, te) :: rest) st₂ := rfl

theorem cvFoldLoop_last {e : Env} {n : Nat} {tr te : List Nat} :
    ∀ {splits : List (List Nat × List Nat)} {st st' : Mat × List Nat} {ss : List ℚ},
      splits.getLast? = some (tr, te) →
      cvFoldLoop e n splits st = .ok (st', ss) →
      st' = combine_sequences tr e.sequences := by
  intro splits
  induction splits with
  | nil => intro st st' ss hl _; simp at hl
  | cons s rest ih =>
    intro st st' ss hl h
    obtain ⟨a, b⟩ := s
    unfold cvFoldLoop at h
    cases hstep : cvFoldStep e n a b with
    | error exc =>
      simp only [hstep] at h
      exact Except.noConfusion h
    | ok res =>
      cases hrec : cvFoldLoop e n rest (combine_sequences a e.sequences) with
      | error exc =>
        simp only [hstep, hrec] at h
        exact Except.noConfusion h
      | ok p =>
        obtain ⟨stR, ssR⟩ := p
        simp only [hstep, hrec, Except.ok.injEq, Prod.mk.injEq] at h
        have hst : st' = stR := h.1.symm
        cases rest with
        | nil =>
          have hab : a = tr := by
            simp at hl
            exact hl.1
          have hR : stR = combine_sequences a e.sequences := by
            have h2 : (Except.ok ((combine_sequences a e.sequences), ([] : List ℚ))
                : Except PyExc ((Mat × List Nat) × List ℚ)) = .ok (stR, ssR) := hrec
            injection h2 with h3
            exact (congrArg Prod.fst h3).symm
          rw [hst, hR, hab]
        | cons s₂ rest₂ =>
          have hl₂ : (s₂ :: rest₂).getLast? = some (tr, te) := by
            rwa [List.getLast?_cons_cons] at hl
          rw [hst]
          exact ih hl₂ hrec

theorem cvCandidate_nil_splits {e : Env} {n : Nat} {st : Mat × List Nat}
    (h : e.kfoldSplits = .ok []) : cvCandidate e n st = .ok (st, none) := by
  unfold cvCandidate
  rw [h]
  rfl

theorem cvCandidate_state_irrel {e : Env} {n : Nat} {tr te : List Nat}
    {rest : List (List Nat × List Nat)} (h : e.kfoldSplits = .ok ((tr, te) :: rest))
    (st st₂ : Mat × List Nat) : cvCandidate e n st = cvCandidate e n st₂ := by
  simp only [cvCandidate, h]
  rw [cvFoldLoop_state_irrel st st₂]

theorem cvCandidate_last {e : Env} {n : Nat} {tr te : List Nat}
    {splits : List (List Nat × List Nat)} {st st' : Mat × List Nat} {v : Option ℚ}
    (hk : e.kfoldSplits = .ok splits) (hl : splits.getLast? = some (tr, te))
    (h : cvCandidate e n st = .ok (st', v)) :
    st' = combine_sequences tr e.sequences := by
  unfold cvCandidate at h
  cases hf : cvFoldLoop e n splits st with
  | error exc =>
    simp only [hk, hf] at h
    exact Except.noConfusion h
  | ok p =>
    obtain ⟨stF, ssF⟩ := p
    simp only [hk, hf, Except.ok.injEq, Prod.mk.injEq] at h
    rw [h.1.symm]
    exact cvFoldLoop_last hl hf

theorem cvLoop_early_elim {e : Env} :
    ∀ {ns : List Nat} {st : Mat × List Nat} {r : Option Nat} {st' : Mat × List Nat},
      cvLoop e ns st = .ok (.early r st') →
      ¬ 2 < e.sequences.length ∧ st' = st ∧ r = e.fit e.minN st.1 st.2 := by
  intro ns
  induction ns with
  | nil =>
    intro st r st' h
    have h' : (Except.ok (CVStep.table st []) : Except PyExc CVStep) = .ok (.early r st') := h
    injection h' with h''
    exact CVStep.noConfusion h''
  | cons n rest ih =>
    intro st r st' h
    unfold cvLoop at h
    by_cases hlen : 2 < e.sequences.length
    · rw [if_pos hlen] at h
      cases hc : cvCandidate e n st with
      | error exc =>
        simp only [hc] at h
        exact Except.noConfusion h
      | ok p =>
        obtain ⟨stA, v⟩ := p
        cases hr : cvLoop e rest stA with
        | error exc =>
          simp only [hc, hr] at h
          exact Except.noConfusion h
        | ok s =>
          cases s with
          | early r₂ st₂ => exact absurd (ih hr).1 (by simpa using hlen)
          | table st₂ tbl₂ =>
            simp only [hc, hr, Except.ok.injEq] at h
            exact CVStep.noConfusion h
    · rw [if_neg hlen] at h
      injection h with h'
      injection h' with h1 h2
      exact ⟨hlen, h2.symm, h1.symm⟩

theorem range'_getElem? : ∀ {n s i : Nat}, i < n → (List.range' s n)[i]? = some (s + i) := by
  intro n
  induction n with
  | zero => intro s i h; exact absurd h (Nat.not_lt_zero i)
  | succ k ih =>
    intro s i h
    rw [List.range'_succ]
    cases i with
    | zero => simp
    | succ j =>
      have hj : j < k := by omega
      simp only [List.getElem?_cons_succ]
      rw [ih hj]
      congr 1
      omega

theorem bicSelectSt_state {e : Env} {st st' : Mat × List Nat} {r : Option Nat}
    (h : bicSelectSt e st = .ok (r, st')) : st' = st := by
  unfold bicSelectSt at h
  cases ht : bicTable e st with
  | error exc => rw [ht] at h; exact Except.noConfusion h
  | ok tbl =>
    simp only [ht] at h
    by_cases hall : tbl.all Option.isNone
    · rw [if_pos hall] at h
      injection h with h'
      exact (congrArg Prod.snd h').symm
    · rw [if_neg hall] at h
      cases hp : pickMinIdx tbl with
      | error exc =>
        simp only [hp] at h
        exact Except.noConfusion h
      | ok i =>
        simp only [hp, Except.ok.injEq] at h
        exact (congrArg Prod.snd h).symm

theorem dicSelectSt_state {e : Env} {st st' : Mat × List Nat} {r : Option Nat}
    (h : dicSelectSt e st = .ok (r, st')) : st' = st := by
  unfold dicSelectSt at h
  cases ht : dicTable e st with
  | error exc => rw [ht] at h; exact Except.noConfusion h
  | ok tbl =>
    simp only [ht] at h
    cases hp : pickMaxIdx tbl with
    | error exc =>
      cases exc with
      | valueError =>
        simp only [hp, Except.ok.injEq] at h
        exact (congrArg Prod.snd h).symm
      | attributeError => simp only [hp] at h; exact Except.noConfusion h
      | typeError => simp only [hp] at h; exact Except.noConfusion h
      | zeroDivisionError => simp only [hp] at h; exact Except.noConfusion h
      | otherError => simp only [hp] at h; exact Except.noConfusion h
    | ok i =>
      simp only [hp, Except.ok.injEq] at h
      exact (congrArg Prod.snd h).symm

theorem cvLoop_cons_table {e : Env} {n : Nat} {rest : List Nat}
    {st stA stB : Mat × List Nat} {v : Option ℚ} {tbl : List (Option ℚ)}
    (hlen : 2 < e.sequences.length) (hc : cvCandidate e n st = .ok (stA, v))
    (hl : cvLoop e rest stA = .ok (.table stB tbl)) :
    cvLoop e (n :: rest) st = .ok (.table stB (v :: tbl)) := by
  unfold cvLoop
  rw [if_pos hlen]
  simp only [hc, hl]

theorem cvLoop_cons_elim {e : Env} {n : Nat} {rest : List Nat}
    {st stB : Mat × List Nat} {tbl : List (Option ℚ)}
    (hlen : 2 < e.sequences.length)
    (h : cvLoop e (n :: rest) st = .ok (.table stB tbl)) :
    ∃ stA v tbl', cvCandidate e n st = .ok (stA, v) ∧
      cvLoop e rest stA = .ok (.table stB tbl') ∧ tbl = v :: tbl' := by
  unfold cvLoop at h
  rw [if_pos hlen] at h
  cases hc : cvCandidate e n st with
  | error exc =>
    simp only [hc] at h
    exact Except.noConfusion h
  | ok p =>
    obtain ⟨stA, v⟩ := p
    cases hr : cvLoop e rest stA with
    | error exc =>
      simp only [hc, hr] at h
      exact Except.noConfusion h
    | ok s =>
      cases s with
      | early r₂ st₂ =>
        simp only [hc, hr, Except.ok.injEq] at h
        exact CVStep.noConfusion h
      | table st₂ tbl₂ =>
        simp only [hc, hr, Except.ok.injEq] at h
        injection h with h1 h2
        refine ⟨stA, v, tbl₂, rfl, ?_, h2.symm⟩
        rw [← h1]
        exact hr

theorem cvLoop_rerun {e : Env} (hlen : 2 < e.sequences.length) :
    ∀ {ns : List Nat} {st stB : Mat × List Nat} {tbl : List (Option ℚ)},
      cvLoop e ns st = .ok (.table stB tbl) → cvLoop e ns stB = .ok (.table stB tbl) := by
  intro ns
  induction ns with
  | nil =>
    intro st stB tbl h
    have h' : (Except.ok (CVStep.table st []) : Except PyExc CVStep) = .ok (.table stB tbl) := h
    injection h' with h''
    injection h'' with h1 h2
    rw [← h1, ← h2]
    rfl
  | cons n rest ih =>
    intro st stB tbl h
    obtain ⟨stA, v, tbl', hc, hr, rfl⟩ := cvLoop_cons_elim hlen h
    cases hks : e.kfoldSplits with
    | error exc =>
      unfold cvCandidate at hc
      simp only [hks] at hc
      exact Except.noConfusion hc
    | ok splits =>
      cases splits with
      | nil =>
        have hcn : cvCandidate e n st = .ok (st, none) := cvCandidate_nil_splits hks
        rw [hc] at hcn
        injection hcn with hcn'
        injection hcn' with hA hV
        have hcB : cvCandidate e n stB = .ok (stB, v) := by
          rw [hV]
          exact cvCandidate_nil_splits hks
        exact cvLoop_cons_table hlen hcB (ih hr)
      | cons s₀ r₀ =>
        obtain ⟨tr₀, te₀⟩ := s₀
        have hcB : cvCandidate e n stB = .ok (stA, v) := by
          rw [cvCandidate_state_irrel hks stB st]
          exact hc
        exact cvLoop_cons_table hlen hcB hr

theorem cvLoop_last_state {e : Env} {splits : List (List Nat × List Nat)}
    {tr te : List Nat} (hlen : 2 < e.sequences.length)
    (hks : e.kfoldSplits = .ok splits) (hl : splits.getLast? = some (tr, te)) :
    ∀ {ns : List Nat} {st stB : Mat × List Nat} {tbl : List (Option ℚ)},
      ns ≠ [] → cvLoop e ns st = .ok (.table stB tbl) →
      stB = combine_sequences tr e.sequences := by
  intro ns
  induction ns with
  | nil => intro st stB tbl hne _; exact absurd rfl hne
  | cons n rest ih =>
    intro st stB tbl _ h
    obtain ⟨stA, v, tbl', hc, hr, rfl⟩ := cvLoop_cons_elim hlen h
    cases rest with
    | nil =>
      have h' : (Except.ok (CVStep.table stA []) : Except PyExc CVStep)
          = .ok (.table stB tbl') := hr
      injection h' with h''
      injection h'' with h1 h2
      rw [← h1]
      exact cvCandidate_last hks hl hc
    | cons n₂ rest₂ =>
      exact ih (List.cons_ne_nil n₂ rest₂) hr

/-! ### Lemmas about the recognizer -/

theorem itemScores_mem {score : Nat → Mat → List Nat → Except PyExc ℚ}
    {X : Mat} {l : List Nat} {w : String} {s : ℚ} :
    ∀ {models : List (String × Nat)},
      (w, s) ∈ itemScores score models X l ↔
        ∃ m, (w, m) ∈ models ∧ score m X l = .ok s := by
  intro models
  induction models with
  | nil => simp [itemScores]
  | cons p ps ih =>
    obtain ⟨pw, pm⟩ := p
    cases hps : score pm X l with
    | ok s₀ =>
      constructor
      · intro hmem
        have hsplit : (w, s) = (pw, s₀) ∨ (w, s) ∈ itemScores score ps X l := by
          simpa [itemScores, List.filterMap_cons, hps] using hmem
        rcases hsplit with heq | hmem'
        · injection heq with h1 h2
          exact ⟨pm, by simp [h1], by rw [h2]; exact hps⟩
        · rcases ih.mp hmem' with ⟨m, hm, hsc⟩
          exact ⟨m, by simp [hm], hsc⟩
      · rintro ⟨m, hm, hsc⟩
        have hcons : itemScores score ((pw, pm) :: ps) X l
            = (pw, s₀) :: itemScores score ps X l := by
          simp [itemScores, List.filterMap_cons, hps]
        rw [hcons]
        rcases List.mem_cons.mp hm with heq | hm'
        · injection heq with h1 h2
          have hs : s = s₀ := by
            rw [h2] at hsc
            rw [hsc] at hps
            injection hps
          exact List.mem_cons.mpr (.inl (by rw [h1, hs]))
        · exact List.mem_cons_of_mem _ (ih.mpr ⟨m, hm', hsc⟩)
    | error exc =>
      constructor
      · intro hmem
        have hmem' : (w, s) ∈ itemScores score ps X l := by
          simpa [itemScores, List.filterMap_cons, hps] using hmem
        rcases ih.mp hmem' with ⟨m, hm, hsc⟩
        exact ⟨m, by simp [hm], hsc⟩
      · rintro ⟨m, hm, hsc⟩
        rcases List.mem_cons.mp hm with heq | hm'
        · injection heq with h1 h2
          rw [h2] at hsc
          rw [hsc] at hps
          exact Except.noConfusion hps
        · have hcons : itemScores score ((pw, pm) :: ps) X l
              = itemScores score ps X l := by
            simp [itemScores, List.filterMap_cons, hps]
          rw [hcons]
          exact ih.mpr ⟨m, hm', hsc⟩

theorem foldl_bestStep_mem : ∀ {rest : List (String × ℚ)} {b : String × ℚ},
    rest.foldl bestStep b = b ∨ rest.foldl bestStep b ∈ rest := by
  intro rest
  induction rest with
  | nil => intro b; simp
  | cons z zs ih =>
    intro b
    rw [List.foldl_cons]
    rcases @ih (bestStep b z) with h | h
    · rw [h]
      unfold bestStep
      by_cases hz : z.2 > b.2
      · rw [if_pos hz]
        exact .inr (List.mem_cons_self z zs)
      · rw [if_neg hz]
        exact .inl rfl
    · exact .inr (List.mem_cons_of_mem _ h)

theorem foldl_bestStep_ge : ∀ {rest : List (String × ℚ)} {b : String × ℚ},
    b.2 ≤ (rest.foldl bestStep b).2 ∧ ∀ q ∈ rest, q.2 ≤ (rest.foldl bestStep b).2 := by
  intro rest
  induction rest with
  | nil => intro b; simp
  | cons z zs ih =>
    intro b
    rw [List.foldl_cons]
    have hb : b.2 ≤ (bestStep b z).2 := by
      unfold bestStep
      by_cases hz : z.2 > b.2
      · rw [if_pos hz]; exact le_of_lt hz
      · rw [if_neg hz]
    have hz2 : z.2 ≤ (bestStep b z).2 := by
      unfold bestStep
      by_cases hz : z.2 > b.2
      · rw [if_pos hz]
      · rw [if_neg hz]; exact le_of_not_lt hz
    refine ⟨le_trans hb ih.1, ?_⟩
    intro q hq
    rcases List.mem_cons.mp hq with rfl | hq'
    · exact le_trans hz2 ih.1
    · exact ih.2 q hq'

theorem firstMax_spec {l : List (String × ℚ)} {g : String × ℚ}
    (h : firstMax l = some g) : g ∈ l ∧ ∀ q ∈ l, q.2 ≤ g.2 := by
  cases l with
  | nil => exact Option.noConfusion h
  | cons p rest =>
    have hg : rest.foldl bestStep p = g := by
      have h' : (some (rest.foldl bestStep p) : Option (String × ℚ)) = some g := h
      injection h'
    subst hg
    constructor
    · rcases @foldl_bestStep_mem rest p with h' | h'
      · rw [h']; exact List.mem_cons_self p rest
      · exact List.mem_cons_of_mem _ h'
    · intro q hq
      rcases List.mem_cons.mp hq with rfl | hq'
      · exact (foldl_bestStep_ge).1
      · exact (foldl_bestStep_ge).2 q hq'

theorem cvFinish_state {e : Env} {stB st' : Mat × List Nat} {tbl : List (Option ℚ)}
    {r : Option Nat} (h : cvFinish e stB tbl = .ok (r, st')) : st' = stB := by
  unfold cvFinish at h
  by_cases hall : tbl.all Option.isNone
  · rw [if_pos hall] at h
    injection h with h'
    exact (congrArg Prod.snd h').symm
  · rw [if_neg hall] at h
    cases hp : pickMaxIdx tbl with
    | error exc =>
      simp only [hp] at h
      exact Except.noConfusion h
    | ok i =>
      simp only [hp, Except.ok.injEq] at h
      exact (congrArg Prod.snd h).symm

/-! ### Closed-form evaluations of the embedded selectors on the test
environments (shared by the claim theorems below) -/

theorem dic1Table : dicTable envDic1 (envDic1.X, envDic1.lengths) = .ok [some (-3)] := by
  norm_num +decide [dicTable, nRange, envDic1, exMap, dicCandidate, otherWords, charStrings,
    collectStrScores, pyTruthyFilter]

theorem dic1Spec : dicSpecScore envDic1 2 (-3) = some 4 := by
  norm_num +decide [dicSpecScore, envDic1, List.filterMap_cons]

theorem bicParenTable :
    bicTable envBicParen (envBicParen.X, envBicParen.lengths) = .ok [some 30] := by
  norm_num +decide [bicTable, nRange, envBicParen, envDic1, exMap, bicEntry, bicCodeScore,
    nCols, nRows]

theorem bicParenSpec :
    bicSpecScore envBicParen (envBicParen.X, envBicParen.lengths) 2 (-10) = 34 := by
  norm_num [bicSpecScore, envBicParen, envDic1, nCols, nRows]

theorem bicZeroTable : bicTable envBicZero stD = .ok [some 0, some 5] := by
  norm_num +decide [bicTable, nRange, envBicZero, envDic1, exMap, bicEntry, bicCodeScore,
    nCols, nRows, stD]

theorem bicZeroSelect : bicSelectSt envBicZero stD = .ok (some 3, stD) := by
  have hp : pickMinIdx [some 0, some 5] = .ok 1 := rfl
  simp only [bicSelectSt, bicZeroTable, hp]
  rfl

theorem bicZeroFailTable : bicTable envBicZeroFail stD = .ok [none, some 5] := by
  norm_num +decide [bicTable, nRange, envBicZeroFail, envBicZero, envDic1, exMap, bicEntry,
    bicCodeScore, nCols, nRows, stD]

theorem bicZeroFailSelect : bicSelectSt envBicZeroFail stD = .ok (some 3, stD) := by
  have hp : pickMinIdx [none, some 5] = .ok 1 := rfl
  simp only [bicSelectSt, bicZeroFailTable, hp]
  rfl

theorem dicZeroTable : dicTable envDicZero stD = .ok [some 0, some (-5)] := by
  norm_num +decide [dicTable, nRange, envDicZero, envDic1, exMap, dicCandidate, otherWords,
    charStrings, collectStrScores, pyTruthyFilter, stD]

theorem dicZeroSelect : dicSelectSt envDicZero stD = .ok (some 3, stD) := by
  have hp : pickMaxIdx [some 0, some (-5)] = .ok 1 := by
    norm_num +decide [pickMaxIdx, pyTruthyFilter, pyMax, pyIndex, pyIndexAux]
  simp only [dicSelectSt, dicZeroTable, hp]
  rfl

theorem cvZeroSelect :
    cvSelectSt envCvZero stD = .ok (some 3, combine_sequences [0, 1] envCvZero.sequences) := by
  have hload : cvLoop envCvZero (nRange envCvZero) stD
      = .ok (.table (combine_sequences [0, 1] envCvZero.sequences) [some 0, some (-5)]) := by
    norm_num +decide [cvLoop, nRange, envCvZero, envDic1, cvCandidate, cvFoldLoop, cvFoldStep,
      combine_sequences, stD]
  have hp : pickMaxIdx [some 0, some (-5)] = .ok 1 := by
    norm_num +decide [pickMaxIdx, pyTruthyFilter, pyMax, pyIndex, pyIndexAux]
  simp only [cvSelectSt, hload, cvFinish, hp]
  rfl

theorem cvRunSelect :
    cvSelectSt envCvRun stD = .ok (some 2, combine_sequences [0, 1] envCvRun.sequences) := by
  have hload : cvLoop envCvRun (nRange envCvRun) stD
      = .ok (.table (combine_sequences [0, 1] envCvRun.sequences) [some (-3)]) := by
    norm_num +decide [cvLoop, nRange, envCvRun, envDic1, cvCandidate, cvFoldLoop, cvFoldStep,
      combine_sequences, stD]
  have hp : pickMaxIdx [some (-3)] = .ok 0 := rfl
  simp only [cvSelectSt, hload, cvFinish, hp]
  rfl

/-! ### The claims -/

/-- C1: the claim states that for a candidate whose fit and self-score
succeed, the recorded DIC score is `logL_self` minus the mean of the fitted
model's log-likelihood on each *other* word's data over the other words where
scoring succeeded.  On `envDic1` (vocabulary `A`, `B`; current word `A`; fit
succeeds with handle 2; self-score `-3`; the model's log-likelihood on `B`'s
data is `-7`), the claimed score is `-3 - (-7) = 4`, but the code records
`-3`: `SelectorDIC` never touches the other word's data — it calls
`model.score(other_word, model)` on the word *string* (which fails), and
divides by the count of other words, so the penalty is `0` and the recorded
score deviates from the documented DIC formula. -/
theorem c1_dic_recorded_score_code_bug :
    envDic1.fit 2 envDic1.X envDic1.lengths = some 2
    ∧ envDic1.score 2 envDic1.X envDic1.lengths = .ok (-3)
    ∧ dicTable envDic1 (envDic1.X, envDic1.lengths) = .ok [some (-3)]
    ∧ dicSpecScore envDic1 2 (-3) = some 4
    ∧ ((-3 : ℚ) ≠ 4) :=
  ⟨rfl, rfl, dic1Table, dic1Spec, by norm_num⟩

/-- C2 (counterexample): the claim states the recorded BIC score is
`-2*logL + p * log2 N` with the whole `p = n^2 + (2nd - 1)` multiplied by
`log2 N`.  On `envBicParen` (`N = 4`, `d = 1`, `log2 4 = 2`, `logL = -10`,
`n = 2`) the claim predicts `20 + (4 + 3)*2 = 34`, but the code records
`20 + (4 + 3*2) = 30`: the parenthesisation multiplies only `(2nd - 1)` by
`log2 N`. -/
theorem c2_counterexample :
    envBicParen.fit 2 envBicParen.X envBicParen.lengths = some 2
    ∧ envBicParen.score 2 envBicParen.X envBicParen.lengths = .ok (-10)
    ∧ bicTable envBicParen (envBicParen.X, envBicParen.lengths) = .ok [some 30]
    ∧ bicSpecScore envBicParen (envBicParen.X, envBicParen.lengths) 2 (-10) = 34
    ∧ ((30 : ℚ) ≠ 34) :=
  ⟨rfl, rfl, bicParenTable, bicParenSpec, by norm_num⟩

/-- C2 (amended): for every candidate `n` in range whose fit and score both
succeed, the score recorded in the `SelectorBIC` table at slot
`n - min_n_components` equals `-2*logL + n^2 + (2*n*d - 1) * log2 N` — the
`n^2` term is added unscaled and only the `(2*n*d - 1)` factor is multiplied
by `log2 N`. -/
theorem c2_bic_recorded_score (e : Env) (st : Mat × List Nat) (n m : Nat) (L : ℚ)
    (tbl : List (Option ℚ))
    (h1 : e.minN ≤ n) (h2 : n ≤ e.maxN)
    (h3 : e.fit n st.1 st.2 = some m)
    (h4 : e.score m st.1 st.2 = .ok L)
    (h5 : bicTable e st = .ok tbl) :
    tbl[n - e.minN]? = some (some
      (-(2 * L) + ((n : ℚ) ^ 2
        + (2 * (n : ℚ) * (nCols st.1 : ℚ) - 1) * e.log2 (nRows st.1)))) := by
  have hi : (nRange e)[n - e.minN]? = some n := by
    unfold nRange
    rw [range'_getElem? (by omega)]
    congr 1
    omega
  obtain ⟨b, hb, hfb⟩ := exMap_ok_get? h5 hi
  unfold bicEntry at hfb
  simp only [h3, h4] at hfb
  injection hfb with hfb'
  rw [hb, ← hfb']
  rfl

/-- Witness for the amended C2 theorem at `envBicParen`, `n = 2`. -/
theorem c2_witness :
    ([some (30 : ℚ)] : List (Option ℚ))[2 - envBicParen.minN]? = some (some
      (-(2 * (-10 : ℚ)) + ((2 : ℚ) ^ 2
        + (2 * (2 : ℚ) * (nCols envBicParen.X : ℚ) - 1)
          * envBicParen.log2 (nRows envBicParen.X)))) :=
  c2_bic_recorded_score envBicParen (envBicParen.X, envBicParen.lengths) 2 2 (-10)
    [some 30] (by decide) (by decide) rfl rfl bicParenTable

/-- C3: the claim states no strategy ever lets an exception escape `select`,
naming in particular `SelectorDIC` on a single-word vocabulary.  On
`envDicSingle` (vocabulary `{"A"}`, current word `"A"`, fit and self-score
succeeding) the penalty computation on line 128 divides by
`len([word for word in other_words if word]) = 0` outside any `try`, so
`select` raises `ZeroDivisionError`. -/
theorem c3_dic_single_word_raises :
    dicSelectSt envDicSingle (envDicSingle.X, envDicSingle.lengths)
      = .error .zeroDivisionError := rfl

/-- C5 (counterexample): the claim states `SelectorBIC` re-fits at the
candidate with the minimum recorded score among present entries.  On
`envBicZero` the recorded table is `[0, 5]` — the minimum present entry is
`0` at `n = 2` — yet the code returns the model re-fitted at `n = 3` (handle
`3`), because `filter(None, model_scores)` drops the `0.0` entry. -/
theorem c5_counterexample :
    bicTable envBicZero stD = .ok [some 0, some 5]
    ∧ ((0 : ℚ) < 5)
    ∧ envBicZero.fit 2 stD.1 stD.2 = some 2
    ∧ bicSelectSt envBicZero stD = .ok (some 3, stD)
    ∧ ((Except.ok ((some 3 : Option Nat), stD) : Except PyExc (Option Nat × (Mat × List Nat)))
        ≠ .ok ((some 2 : Option Nat), stD)) :=
  ⟨bicZeroTable, by norm_num, rfl, bicZeroSelect, by decide⟩

/-- C5 (amended): if every candidate failed, `SelectorBIC.select` returns no
model; if at least one candidate recorded a *non-zero* score, it returns the
model re-fitted at the candidate with the minimum recorded score among the
present non-zero entries (an entry recorded as exactly `0.0` is skipped by
the winner computation, like an absent one). -/
theorem c5_bic_selection_rule (e : Env) (st : Mat × List Nat) (tbl : List (Option ℚ))
    (h5 : bicTable e st = .ok tbl) :
    ((∀ x ∈ tbl, x = none) → bicSelectSt e st = .ok (none, st))
    ∧ (∀ v : ℚ, some v ∈ tbl → v ≠ 0 →
        ∃ i w, bicSelectSt e st = .ok (e.fit (i + e.minN) st.1 st.2, st)
          ∧ tbl[i]? = some (some w) ∧ w ≠ 0
          ∧ ∀ u : ℚ, some u ∈ tbl → u ≠ 0 → w ≤ u) := by
  constructor
  · intro hall
    simp only [bicSelectSt, h5]
    rw [if_pos (all_isNone_of_forall hall)]
  · intro v hv hv0
    obtain ⟨i, hp⟩ := pickMinIdx_isOk hv hv0
    obtain ⟨w, hwi, hw0, hwmin⟩ := pickMinIdx_spec hp
    refine ⟨i, w, ?_, hwi, hw0, hwmin⟩
    simp only [bicSelectSt, h5]
    rw [if_neg (by simp [all_isNone_false_of_mem hv])]
    simp only [hp]

/-- Witness for the amended C5 theorem at `envBicZero` (whose non-zero entry
is `5`). -/
theorem c5_witness :
    ∃ i w, bicSelectSt envBicZero stD
        = .ok (envBicZero.fit (i + envBicZero.minN) stD.1 stD.2, stD)
      ∧ ([some 0, some 5] : List (Option ℚ))[i]? = some (some w) ∧ w ≠ 0
      ∧ ∀ u : ℚ, some u ∈ ([some 0, some 5] : List (Option ℚ)) → u ≠ 0 → w ≤ u :=
  (c5_bic_selection_rule envBicZero stD [some 0, some 5] bicZeroTable).2 5
    (by decide) (by norm_num)

/-- C4: for every model bank and test set such that each item yields at
least one successful score, `recognize` returns the per-item score maps in
test-set order, each map containing exactly the words whose model scored that
item successfully, and each item's guess is a word of its map attaining the
maximal score. -/
theorem c4_recognize_spec (score : Nat → Mat → List Nat → Except PyExc ℚ)
    (models : List (String × Nat)) :
    ∀ ts : List (Mat × List Nat),
      (∀ it ∈ ts, ∃ p ∈ models, ∃ s : ℚ, score p.2 it.1 it.2 = .ok s) →
      ∃ gs, recognize score models ts
          = .ok (ts.map (fun it => itemScores score models it.1 it.2), gs)
        ∧ gs.length = ts.length
        ∧ (∀ (it : Mat × List Nat) (w : String) (s : ℚ),
            (w, s) ∈ itemScores score models it.1 it.2 ↔
              ∃ m, (w, m) ∈ models ∧ score m it.1 it.2 = .ok s)
        ∧ ∀ (i : Nat) (it : Mat × List Nat), ts[i]? = some it →
            ∃ g s, gs[i]? = some g ∧ (g, s) ∈ itemScores score models it.1 it.2
              ∧ ∀ q ∈ itemScores score models it.1 it.2, q.2 ≤ s := by
  intro ts
  induction ts with
  | nil =>
    intro _
    refine ⟨[], rfl, rfl, fun it w s => itemScores_mem, ?_⟩
    intro i it hit
    simp at hit
  | cons t rest ih =>
    intro h
    obtain ⟨X, l⟩ := t
    obtain ⟨p, hp, s₀, hs₀⟩ := h (X, l) (List.mem_cons_self _ _)
    have hmem : (p.1, s₀) ∈ itemScores score models X l :=
      itemScores_mem.mpr ⟨p.2, by simpa using hp, hs₀⟩
    obtain ⟨gs, hrec, hlen, hiff, hprop⟩ :=
      ih (fun it hit => h it (List.mem_cons_of_mem _ hit))
    cases hfm : firstMax (itemScores score models X l) with
    | none =>
      exfalso
      cases hsc : itemScores score models X l with
      | nil => rw [hsc] at hmem; simp at hmem
      | cons q qs =>
        rw [hsc] at hfm
        have hfm' : (some (qs.foldl bestStep q) : Option (String × ℚ)) = none := hfm
        exact Option.noConfusion hfm'
    | some g =>
      refine ⟨g.1 :: gs, ?_, by simp [hlen], fun it w s => itemScores_mem, ?_⟩
      · show recognize score models ((X, l) :: rest) = _
        unfold recognize
        simp only [hfm, hrec, List.map_cons]
      · intro i it hit
        cases i with
        | zero =>
          have hit' : it = (X, l) := by
            have : (some (X, l) : Option (Mat × List Nat)) = some it := by simpa using hit
            injection this with h'
            exact h'.symm
          subst hit'
          obtain ⟨hginl, hgmax⟩ := firstMax_spec hfm
          exact ⟨g.1, g.2, by simp, by simpa using hginl, hgmax⟩
        | succ j =>
          have hit' : rest[j]? = some it := by simpa using hit
          obtain ⟨g', s', hg', hmem', hmax'⟩ := hprop j it hit'
          exact ⟨g', s', by simpa using hg', hmem', hmax'⟩

/-- Witness for C4 at a bank of two models and a one-item test set. -/
theorem c4_witness :
    ∃ gs, recognize scoreW modelsW tsW
        = .ok (tsW.map (fun it => itemScores scoreW modelsW it.1 it.2), gs)
      ∧ gs.length = tsW.length
      ∧ (∀ (it : Mat × List Nat) (w : String) (s : ℚ),
          (w, s) ∈ itemScores scoreW modelsW it.1 it.2 ↔
            ∃ m, (w, m) ∈ modelsW ∧ scoreW m it.1 it.2 = .ok s)
      ∧ ∀ (i : Nat) (it : Mat × List Nat), tsW[i]? = some it →
          ∃ g s, gs[i]? = some g ∧ (g, s) ∈ itemScores scoreW modelsW it.1 it.2
            ∧ ∀ q ∈ itemScores scoreW modelsW it.1 it.2, q.2 ≤ s :=
  c4_recognize_spec scoreW modelsW tsW
    (fun it _ => ⟨("A", 0), by simp [modelsW], ⟨-50, rfl⟩⟩)

/-- C6: for a word with 2 or fewer training sequences, `SelectorCV.select`
returns `base_model(min_n_components)` fitted on the selector's current data
immediately.  The equation holds for every `kfoldSplits` oracle value
(including a raising one) and constrains only `fit` at `min_n_components`, so
no k-fold partitioning happens and no further candidate is evaluated. -/
theorem c6_cv_few_sequences (e : Env) (st : Mat × List Nat)
    (h : e.sequences.length ≤ 2) :
    cvSelectSt e st = .ok (e.fit e.minN st.1 st.2, st) := by
  cases hr : nRange e with
  | nil =>
    unfold cvSelectSt
    rw [hr]
    rfl
  | cons n rest =>
    unfold cvSelectSt
    rw [hr]
    have hlen : ¬ 2 < e.sequences.length := by omega
    unfold cvLoop
    rw [if_neg hlen]

/-- Witness for C6: one training sequence and a poisoned k-fold oracle. -/
theorem c6_witness :
    cvSelectSt envCvSmall (envCvSmall.X, envCvSmall.lengths)
      = .ok (envCvSmall.fit envCvSmall.minN envCvSmall.X envCvSmall.lengths,
          (envCvSmall.X, envCvSmall.lengths)) :=
  c6_cv_few_sequences envCvSmall (envCvSmall.X, envCvSmall.lengths) (by decide)

/-- C7: when every candidate fails to produce a score — for `SelectorDIC`,
every loop body takes the `continue` path; for `SelectorCV`, the completed
table is all-`None` — `select` returns `base_model(min_n_components)` (for
CV, fitted on the state as mutated by the folds) instead of the `None` that
`SelectorBIC` would return. -/
theorem c7_exhausted_fallback (e : Env) (st st' : Mat × List Nat)
    (tbl : List (Option ℚ))
    (hd : ∀ n ∈ nRange e, dicCandidate e st n = .ok none)
    (hc : cvLoop e (nRange e) st = .ok (.table st' tbl))
    (hall : ∀ x ∈ tbl, x = none) :
    dicSelectSt e st = .ok (e.fit e.minN st.1 st.2, st)
    ∧ cvSelectSt e st = .ok (e.fit e.minN st'.1 st'.2, st') := by
  constructor
  · have ht : dicTable e st = .ok ((nRange e).map (fun _ => (none : Option ℚ))) :=
      exMap_congr_ok hd
    have hmax : pickMaxIdx ((nRange e).map (fun _ => (none : Option ℚ)))
        = .error .valueError :=
      pickMaxIdx_all_none (by
        intro x hx
        rcases List.mem_map.mp hx with ⟨a, _, rfl⟩
        rfl)
    simp only [dicSelectSt, ht, hmax]
  · simp only [cvSelectSt, hc, cvFinish]
    rw [if_pos (all_isNone_of_forall hall)]

/-- Witness for C7 at `envCvFallback`, where fits succeed but every scoring
raises `ValueError`: both selectors fall back to the 2-state model. -/
theorem c7_witness :
    dicSelectSt envCvFallback stD
      = .ok (envCvFallback.fit envCvFallback.minN stD.1 stD.2, stD)
    ∧ cvSelectSt envCvFallback stD
      = .ok (envCvFallback.fit envCvFallback.minN
            (combine_sequences [0, 1] envCvFallback.sequences).1
            (combine_sequences [0, 1] envCvFallback.sequences).2,
          combine_sequences [0, 1] envCvFallback.sequences) :=
  c7_exhausted_fallback envCvFallback stD
    (combine_sequences [0, 1] envCvFallback.sequences) [none, none]
    (by decide) rfl (by decide)

/-- C8: running any strategy's `select` a second time on the same selector
instance (i.e. from the state the first call left behind) returns the same
result and state as the first call: Constant is a single stateless
`base_model(n_constant)` call, BIC and DIC never mutate the state, and CV's
loop overwrites `self.X`/`self.lengths` before reading them, so its score
table and final fit are reproduced exactly.  The embedded oracles are
functions, so the fixed random seed and deterministic fitter of the claim are
built in. -/
theorem c8_select_rerun (e : Env) (st : Mat × List Nat) :
    (∀ r st', constantSelectSt e st = .ok (r, st') → constantSelectSt e st' = .ok (r, st'))
    ∧ (∀ r st', bicSelectSt e st = .ok (r, st') → bicSelectSt e st' = .ok (r, st'))
    ∧ (∀ r st', dicSelectSt e st = .ok (r, st') → dicSelectSt e st' = .ok (r, st'))
    ∧ (∀ r st', cvSelectSt e st = .ok (r, st') → cvSelectSt e st' = .ok (r, st')) := by
  refine ⟨?_, ?_, ?_, ?_⟩
  · intro r st' h
    have hst : st' = st := by
      have h' : (Except.ok (e.fit e.nConstant st.1 st.2, st)
          : Except PyExc (Option Nat × (Mat × List Nat))) = .ok (r, st') := h
      injection h' with h''
      exact (congrArg Prod.snd h'').symm
    rw [hst] at h ⊢
    exact h
  · intro r st' h
    obtain rfl : st' = st := bicSelectSt_state h
    exact h
  · intro r st' h
    obtain rfl : st' = st := dicSelectSt_state h
    exact h
  · intro r st' h
    have hcopy := h
    unfold cvSelectSt at h
    cases hloop : cvLoop e (nRange e) st with
    | error exc =>
      rw [hloop] at h
      exact Except.noConfusion h
    | ok s =>
      cases s with
      | early r₀ st₀ =>
        obtain ⟨hlen, hst, hr⟩ := cvLoop_early_elim hloop
        simp only [hloop, Except.ok.injEq, Prod.mk.injEq] at h
        have hst' : st' = st := by
          rw [← h.2]
          exact hst
        rw [hst'] at hcopy ⊢
        exact hcopy
      | table stB tbl =>
        simp only [hloop] at h
        have hstB : st' = stB := cvFinish_state h
        by_cases hlen : 2 < e.sequences.length
        · have hre : cvLoop e (nRange e) stB = .ok (.table stB tbl) :=
            cvLoop_rerun hlen hloop
          rw [hstB] at h ⊢
          unfold cvSelectSt
          simp only [hre]
          exact h
        · cases hr : nRange e with
          | nil =>
            rw [hr] at hloop
            have hloop' : (Except.ok (CVStep.table st []) : Except PyExc CVStep)
                = .ok (.table stB tbl) := hloop
            injection hloop' with h''
            injection h'' with h1 h2
            have hst' : st' = st := by rw [hstB, ← h1]
            rw [hst'] at hcopy ⊢
            exact hcopy
          | cons n rest =>
            exfalso
            rw [hr] at hloop
            unfold cvLoop at hloop
            rw [if_neg hlen] at hloop
            injection hloop with h''
            exact CVStep.noConfusion h''

/-- Witness for C8: re-running `SelectorCV.select` from the state its first
run left behind (the last training fold) reproduces the first result. -/
theorem c8_witness :
    cvSelectSt envCvRun (combine_sequences [0, 1] envCvRun.sequences)
      = .ok (some 2, combine_sequences [0, 1] envCvRun.sequences)
    ∧ constantSelectSt envCvRun stD = .ok (some 3, stD) :=
  ⟨(c8_select_rerun envCvRun stD).2.2.2 (some 2)
    (combine_sequences [0, 1] envCvRun.sequences) cvRunSelect,
  (c8_select_rerun envCvRun stD).1 (some 3) stD rfl⟩

/-- C9: for a word with more than 2 sequences, `SelectorCV.select` keeps
overwriting `self.X`/`self.lengths` with each training fold, so when it
returns, the stored state is the concatenation of the *last* training fold,
and the winning model produced by the final `base_model` call is fitted on
that last-fold state rather than on the word's full training data. -/
theorem c9_cv_overwrites_state (e : Env) (st : Mat × List Nat)
    (splits : List (List Nat × List Nat)) (tr te : List Nat)
    (r : Option Nat) (st' : Mat × List Nat)
    (hlen : 2 < e.sequences.length)
    (hks : e.kfoldSplits = .ok splits)
    (hl : splits.getLast? = some (tr, te))
    (hmn : e.minN ≤ e.maxN)
    (hrun : cvSelectSt e st = .ok (r, st')) :
    st' = combine_sequences tr e.sequences
    ∧ ∃ k, r = e.fit k st'.1 st'.2 := by
  have hne : nRange e ≠ [] := by
    unfold nRange
    intro hnil
    have hlen0 := congrArg List.length hnil
    simp [List.length_range'] at hlen0
    omega
  unfold cvSelectSt at hrun
  cases hloop : cvLoop e (nRange e) st with
  | error exc =>
    rw [hloop] at hrun
    exact Except.noConfusion hrun
  | ok s =>
    cases s with
    | early r₀ st₀ =>
      exact absurd hlen (cvLoop_early_elim hloop).1
    | table stB tbl =>
      simp only [hloop] at hrun
      have hstB : st' = stB := cvFinish_state hrun
      have hcomb : stB = combine_sequences tr e.sequences :=
        cvLoop_last_state hlen hks hl hne hloop
      refine ⟨hstB.trans hcomb, ?_⟩
      unfold cvFinish at hrun
      by_cases hall : tbl.all Option.isNone
      · rw [if_pos hall] at hrun
        injection hrun with h'
        rw [Prod.mk.injEq] at h'
        refine ⟨e.minN, ?_⟩
        rw [hstB, ← h'.1]
      · rw [if_neg hall] at hrun
        cases hp : pickMaxIdx tbl with
        | error exc =>
          simp only [hp] at hrun
          exact Except.noConfusion hrun
        | ok i =>
          simp only [hp, Except.ok.injEq, Prod.mk.injEq] at hrun
          refine ⟨i + e.minN, ?_⟩
          rw [hstB, ← hrun.1]

/-- Witness for C9 at `envCvRun`: the returned state is the last (only)
training fold and the winner is fitted on it. -/
theorem c9_witness :
    combine_sequences [0, 1] envCvRun.sequences
      = combine_sequences [0, 1] envCvRun.sequences
    ∧ ∃ k, (some 2 : Option Nat)
        = envCvRun.fit k (combine_sequences [0, 1] envCvRun.sequences).1
            (combine_sequences [0, 1] envCvRun.sequences).2 :=
  c9_cv_overwrites_state envCvRun stD [([0, 1], [2])] [0, 1] [2] (some 2)
    (combine_sequences [0, 1] envCvRun.sequences)
    (by decide) rfl rfl (by decide) cvRunSelect

/-- C10: in all three searching selectors the winner computation
`index(extremum(filter(None, model_scores)))` treats an entry recorded as
exactly `0.0` like an absent one: the winner always carries a non-zero
recorded score, and on concrete inputs where the `0.0` entry is strictly
better (`0 < 5` for BIC's minimisation at `n = 2`; `0 > -5` for DIC's and
CV's maximisation at `n = 2`) the selector picks `n = 3` instead — for BIC
exactly the result obtained when the fit at `n = 2` fails outright. -/
theorem c10_zero_scores_filtered :
    (∀ (tbl : List (Option ℚ)) (i : Nat), pickMinIdx tbl = .ok i →
        ∃ v, tbl[i]? = some (some v) ∧ v ≠ 0)
    ∧ (∀ (tbl : List (Option ℚ)) (i : Nat), pickMaxIdx tbl = .ok i →
        ∃ v, tbl[i]? = some (some v) ∧ v ≠ 0)
    ∧ (bicTable envBicZero stD = .ok [some 0, some 5] ∧ (0 : ℚ) < 5
        ∧ bicSelectSt envBicZero stD = .ok (some 3, stD)
        ∧ bicTable envBicZeroFail stD = .ok [none, some 5]
        ∧ bicSelectSt envBicZeroFail stD = .ok (some 3, stD))
    ∧ (dicTable envDicZero stD = .ok [some 0, some (-5)] ∧ (-5 : ℚ) < 0
        ∧ dicSelectSt envDicZero stD = .ok (some 3, stD))
    ∧ cvSelectSt envCvZero stD
        = .ok (some 3, combine_sequences [0, 1] envCvZero.sequences) := by
  refine ⟨?_, ?_,
    ⟨bicZeroTable, by norm_num, bicZeroSelect, bicZeroFailTable, bicZeroFailSelect⟩,
    ⟨dicZeroTable, by norm_num, dicZeroSelect⟩, cvZeroSelect⟩
  · intro tbl i h
    obtain ⟨v, h1, h2, _⟩ := pickMinIdx_spec h
    exact ⟨v, h1, h2⟩
  · intro tbl i h
    obtain ⟨v, h1, h2, _⟩ := pickMaxIdx_spec h
    exact ⟨v, h1, h2⟩

/-- Witness for C10's universally quantified part at a concrete table. -/
theorem c10_witness :
    ∃ v, ([some (0 : ℚ), some 5] : List (Option ℚ))[1]? = some (some v) ∧ v ≠ 0 :=
  c10_zero_scores_filtered.1 [some 0, some 5] 1 rfl

end AIND
